import Mathlib

/-!
Shallow embedding of `src/i2c.c`, a PIC MSSP I2C master-mode driver.

Modelling conventions:

* The hardware registers touched by the driver are gathered in the machine
  state `MSt`.  `SSPCON2` and `SSPSTAT` are 8-bit registers modelled as `Nat`
  (values kept below 256 by the operations that write them); the single-bit
  flags `SSPIF` and `BCLIF` are `Bool`; the C global `int ack_flag` is `Nat`.
  Bit layout of `SSPCON2` (as on the PIC MSSP): bit 0 `SEN`, bit 1 `RSEN`,
  bit 2 `PEN`, bit 3 `RCEN`, bit 4 `ACKEN`, bit 5 `ACKDT`, bit 6 `ACKSTAT`.
  Bit layout of `SSPSTAT`: bit 0 `BF` (buffer full), bit 2 `R/W`.
* The hardware and the interrupt-dispatch mechanism are the environment.  An
  environment step is an `Act`: the peripheral rewriting its registers
  (`Act.hw`), raising the completion flag `SSPIF` or the collision flag
  `BCLIF`, or the interrupt dispatcher running `i2c_interrupt`.  A busy-wait
  loop (`while` in the C source) consumes environment steps until its exit
  condition holds; an exhausted finite environment models nontermination
  (`Option.none`).
* Each driver function is translated to the list of statements it executes
  (`Ev` events, one per C statement), plus an interpreter `interp` giving
  those statements their register semantics.  Environment steps are consumed
  at the suspension points, i.e. inside the busy-wait loops.
-/

/-- Machine state: the registers of the MSSP peripheral that `i2c.c` touches,
plus the driver's global `ack_flag`. -/
structure MSt where
  con2 : Nat
  stat : Nat
  buf : Nat
  sspif : Bool
  bclif : Bool
  ack_flag : Nat
deriving Repr, DecidableEq

/-- `void i2c_interrupt(void)` from `src/i2c.c`:
`if (SSPIF == 1) { if (ack_flag == 1) { ack_flag = 0; } SSPIF = 0; }
 if (BCLIF == 1) { BCLIF = 0; }`.
The C function returns `void`; correspondingly the model produces only the
updated state and surfaces no status. -/
def i2c_interrupt (s : MSt) : MSt :=
  let s1 :=
    if s.sspif then
      let s0 := if s.ack_flag = 1 then { s with ack_flag := 0 } else s
      { s0 with sspif := false }
    else s
  if s1.bclif then { s1 with bclif := false } else s1

/-- One environment step: the peripheral hardware rewriting its registers,
hardware raising `SSPIF` or `BCLIF`, or the interrupt dispatcher invoking
`i2c_interrupt`.  Hardware never touches the C global `ack_flag`. -/
inductive Act
  | hw (con2 stat buf : Nat)
  | raiseSSPIF
  | raiseBCLIF
  | irq
deriving Repr, DecidableEq

/-- Effect of an environment step on the machine state. -/
def applyAct : Act → MSt → MSt
  | .hw c t b, s => { s with con2 := c % 256, stat := t % 256, buf := b % 256 }
  | .raiseSSPIF, s => { s with sspif := true }
  | .raiseBCLIF, s => { s with bclif := true }
  | .irq, s => i2c_interrupt s

/-- State reached after the first `n` environment steps of `acts` from `s`. -/
def snapSt (s : MSt) (acts : List Act) (n : Nat) : MSt :=
  (acts.take n).foldl (fun t a => applyAct a t) s

/-- Loop condition of `i2c_check_idle(mask)`:
`while ((SSPCON2 & 0x1F) | (SSPSTAT & mask));`. -/
def idleBusy (mask : Nat) (s : MSt) : Bool :=
  decide (((s.con2 &&& 0x1F) ||| (s.stat &&& mask)) ≠ 0)

/-- Loop condition of `while (ack_flag);` (the handshake wait). -/
def ackBusy (s : MSt) : Bool :=
  decide (s.ack_flag ≠ 0)

/-- A busy-wait loop: spin while `busy` holds, consuming one environment step
per iteration.  Returns the state and the remaining environment at loop exit;
`none` when the finite environment is exhausted while still busy (the loop has
not terminated within this environment). -/
def runWait (busy : MSt → Bool) : List Act → MSt → Option (MSt × List Act)
  | acts, s =>
    if busy s then
      match acts with
      | [] => none
      | a :: rest => runWait busy rest (applyAct a s)
    else
      some (s, acts)

/-- `void i2c_check_idle(char mask)` from `src/i2c.c`. -/
def i2c_check_idle (mask : Nat) (acts : List Act) (s : MSt) : Option (MSt × List Act) :=
  runWait (idleBusy mask) acts s

/-- `ack_flag = 1;` — arming the transaction flag before a transmit. -/
def armFlagSt (s : MSt) : MSt :=
  { s with ack_flag := 1 }

/-- `SSPCON2bits.X = 1;` for the condition bit at position `i`. -/
def setCon2Bit (i : Nat) (s : MSt) : MSt :=
  { s with con2 := s.con2 ||| (1 <<< i) }

/-- `SSPCON2bits.ACKDT = v;` — a 1-bit bitfield assignment, so the stored bit
is `v % 2` (bit 5 of `SSPCON2`). -/
def writeAckdt (v : Nat) (s : MSt) : MSt :=
  { s with con2 := if v % 2 = 1 then s.con2 ||| 0x20 else s.con2 &&& 0xDF }

/-- `SSPCON2bits.ACKSTAT` as the `int` the C functions return (0 or 1). -/
def ackstatVal (s : MSt) : Nat :=
  if s.con2.testBit 6 then 1 else 0

/-- One statement of a driver function, as executed by the C source. -/
inductive Ev
  | waitIdle (mask : Nat)
  | setBit (i : Nat)
  | setAckdt (v : Nat)
  | armFlag
  | loadBuf (v : Nat)
  | waitAck
  | readBuf
deriving Repr, DecidableEq

/-- Register effect of the non-waiting statements. -/
def evStep : Ev → MSt → MSt
  | .setBit i, s => setCon2Bit i s
  | .setAckdt v, s => writeAckdt v s
  | .armFlag, s => armFlagSt s
  | .loadBuf v, s => { s with buf := v % 256 }
  | .waitIdle _, s => s
  | .waitAck, s => s
  | .readBuf, s => s

/-- Statement list of `int i2c_start(unsigned char adrs, unsigned char rw)`:
`i2c_check_idle(0x5); SSPCON2bits.SEN = 1; i2c_check_idle(0x5); ack_flag = 1;
 SSPBUF = (unsigned char)((adrs<<1)+rw); while (ack_flag);` — the
`(unsigned char)` cast is the `% 256`. -/
def i2c_start_tr (adrs rw : Nat) : List Ev :=
  [.waitIdle 0x5, .setBit 0, .waitIdle 0x5, .armFlag,
   .loadBuf (((adrs <<< 1) + rw) % 256), .waitAck]

/-- Statement list of `int i2c_rstart(unsigned char adrs, unsigned char rw)`:
as `i2c_start` but `SSPCON2bits.RSEN = 1` instead of `SEN`, and the buffer
store is `SSPBUF = (char)((adrs<<1)+rw);` — at the 8-bit `SSPBUF` register the
`(char)` and `(unsigned char)` casts store the same byte, value mod 256. -/
def i2c_rstart_tr (adrs rw : Nat) : List Ev :=
  [.waitIdle 0x5, .setBit 1, .waitIdle 0x5, .armFlag,
   .loadBuf (((adrs <<< 1) + rw) % 256), .waitAck]

/-- Statement list of `void i2c_stop(void)`:
`i2c_check_idle(0x5); SSPCON2bits.PEN = 1;`. -/
def i2c_stop_tr : List Ev :=
  [.waitIdle 0x5, .setBit 2]

/-- Statement list of `int i2c_send(char dt)`:
`i2c_check_idle(0x5); ack_flag = 1; SSPBUF = dt; while (ack_flag);`. -/
def i2c_send_tr (dt : Nat) : List Ev :=
  [.waitIdle 0x5, .armFlag, .loadBuf (dt % 256), .waitAck]

/-- Statement list of `char i2c_receive(int ack)`:
`i2c_check_idle(0x5); SSPCON2bits.RCEN = 1; i2c_check_idle(0x4);
 dt = SSPBUF; i2c_check_idle(0x5); SSPCON2bits.ACKDT = ack;
 SSPCON2bits.ACKEN = 1;` (returns `dt`). -/
def i2c_receive_tr (ack : Nat) : List Ev :=
  [.waitIdle 0x5, .setBit 3, .waitIdle 0x4, .readBuf,
   .waitIdle 0x5, .setAckdt ack, .setBit 4]

/-- Run a statement list against an environment. The `Nat` accumulator is the
local `dt` of `i2c_receive` (the last value read from `SSPBUF`); the result is
the final state, the unconsumed environment, and that local. `none` means a
busy-wait loop in the list never terminated within the given environment. -/
def interp : List Ev → List Act → MSt → Nat → Option (MSt × List Act × Nat)
  | [], acts, s, dt => some (s, acts, dt)
  | .waitIdle m :: evs, acts, s, dt =>
    match i2c_check_idle m acts s with
    | none => none
    | some (s2, acts2) => interp evs acts2 s2 dt
  | .waitAck :: evs, acts, s, dt =>
    match runWait ackBusy acts s with
    | none => none
    | some (s2, acts2) => interp evs acts2 s2 dt
  | .readBuf :: evs, acts, s, _ => interp evs acts s s.buf
  | e :: evs, acts, s, dt => interp evs acts (evStep e s) dt

/-- Wrapper shared by `i2c_start`, `i2c_rstart` and `i2c_send`: run the
statement list, then `return SSPCON2bits.ACKSTAT;`. -/
def runAddrOp (tr : List Ev) (acts : List Act) (s : MSt) : Option (Nat × MSt × List Act) :=
  match interp tr acts s 0 with
  | none => none
  | some (s2, acts2, _) => some (ackstatVal s2, s2, acts2)

/-- `int i2c_start(unsigned char adrs, unsigned char rw)`. -/
def i2c_start (adrs rw : Nat) (acts : List Act) (s : MSt) : Option (Nat × MSt × List Act) :=
  runAddrOp (i2c_start_tr adrs rw) acts s

/-- `int i2c_rstart(unsigned char adrs, unsigned char rw)`. -/
def i2c_rstart (adrs rw : Nat) (acts : List Act) (s : MSt) : Option (Nat × MSt × List Act) :=
  runAddrOp (i2c_rstart_tr adrs rw) acts s

/-- `void i2c_stop(void)`. -/
def i2c_stop (acts : List Act) (s : MSt) : Option (MSt × List Act) :=
  match interp i2c_stop_tr acts s 0 with
  | none => none
  | some (s2, acts2, _) => some (s2, acts2)

/-- `int i2c_send(char dt)`. -/
def i2c_send (dt : Nat) (acts : List Act) (s : MSt) : Option (Nat × MSt × List Act) :=
  runAddrOp (i2c_send_tr dt) acts s

/-- `char i2c_receive(int ack)`: runs the statement list and `return dt;`. -/
def i2c_receive (ack : Nat) (acts : List Act) (s : MSt) : Option (Nat × MSt × List Act) :=
  match interp (i2c_receive_tr ack) acts s 0 with
  | none => none
  | some (s2, acts2, dt) => some (dt, s2, acts2)

/-- Register writes performed by `void i2c_init_master(void)`:
`SSPCON1 = 0b00101000; SSPSTAT = 0; SSPADD = 0x77; SSPIE = 1; BCLIE = 1;
 PEIE = 1; GIE = 1; SSPIF = 0; BCLIF = 0;`. -/
structure InitEffect where
  sspcon1 : Nat
  sspstat : Nat
  sspadd : Nat
  sspie : Bool
  bclie : Bool
  peie : Bool
  gie : Bool
  sspifAfter : Bool
  bclifAfter : Bool
deriving Repr, DecidableEq

/-- `void i2c_init_master(void)` as the record of the register values it
programs. -/
def i2c_init_master : InitEffect :=
  { sspcon1 := 0b00101000, sspstat := 0, sspadd := 0x77,
    sspie := true, bclie := true, peie := true, gie := true,
    sspifAfter := false, bclifAfter := false }

/-- Divisor formula from the source comment in `i2c_init_master`:
`clock = FOSC/((SSPADD + 1)*4)`, i.e. `SSPADD = FOSC/(4*rate) - 1`. -/
def clockDivisor (fosc rate : Nat) : Nat :=
  fosc / (4 * rate) - 1

/-- First value stored to `SSPBUF` by a statement list, if any. -/
def loadedByte : List Ev → Option Nat
  | [] => none
  | .loadBuf v :: _ => some v
  | _ :: rest => loadedByte rest

/-- Is this statement an assertion of one of the hardware condition bits
(`SEN`, `RSEN`, `PEN`, `RCEN`, `ACKEN`)? -/
def isCondAssert : Ev → Bool
  | .setBit _ => true
  | _ => false

/-- Is this statement a busy-wait (an `i2c_check_idle` or the handshake
`while (ack_flag);`)? -/
def isWaitEv : Ev → Bool
  | .waitIdle _ => true
  | .waitAck => true
  | _ => false

/-- Every condition assertion in the list is followed, later in the same
function, by some busy-wait (so the function does not return before hardware
had to confirm something after the assertion). -/
def assertsAwaited : List Ev → Bool
  | [] => true
  | e :: rest => (!isCondAssert e || rest.any isWaitEv) && assertsAwaited rest

/-- Does the function end on a busy-wait statement? -/
def endsWithWait (tr : List Ev) : Bool :=
  match tr.getLast? with
  | some e => isWaitEv e
  | none => false

/-- Number of `ack_flag = 1;` statements in a list. -/
def countArm (tr : List Ev) : Nat :=
  (tr.filter (fun e => match e with | .armFlag => true | _ => false)).length

/-- Number of statements reading `ack_flag` (the `while (ack_flag);` waits). -/
def countAckReads (tr : List Ev) : Nat :=
  (tr.filter (fun e => match e with | .waitAck => true | _ => false)).length

/-- Every `ack_flag = 1;` in the list is immediately followed by a store to
`SSPBUF`. -/
def armsFollowedByLoad : List Ev → Bool
  | [] => true
  | .armFlag :: rest =>
    (match rest with | .loadBuf _ :: _ => true | _ => false) && armsFollowedByLoad rest
  | _ :: rest => armsFollowedByLoad rest

/-- Textual substitution taking the statement list of `i2c_start` to that of
`i2c_rstart`: `SSPCON2bits.SEN = 1` becomes `SSPCON2bits.RSEN = 1`. -/
def startToRstart : Ev → Ev
  | .setBit 0 => .setBit 1
  | e => e

/-- The `i`-th environment step is an interrupt-dispatch invocation that finds
the completion signal pending and the transaction flag set (armed). -/
def matchingSignal (s : MSt) (acts : List Act) (i : Nat) : Prop :=
  acts[i]? = some Act.irq ∧ (snapSt s acts i).sspif = true ∧ (snapSt s acts i).ack_flag = 1

instance (s : MSt) (acts : List Act) (i : Nat) : Decidable (matchingSignal s acts i) := by
  unfold matchingSignal; infer_instance

/-- The environment raises a fresh completion signal before its first
interrupt-dispatch invocation (true also when it never dispatches). -/
def raiseBeforeIrq : List Act → Bool
  | [] => true
  | .irq :: _ => false
  | .raiseSSPIF :: _ => true
  | _ :: rest => raiseBeforeIrq rest

/-- Observable behaviour of a busy-wait: `none` when it spins forever, else
the number of unconsumed environment steps at the moment it returns. -/
def consumedCount (r : Option (MSt × List Act)) : Option Nat :=
  r.map (fun p => p.2.length)

/-- An idle machine state: no condition bit set, status clear, no pending
signal, flag clear. -/
def mstIdle : MSt :=
  { con2 := 0, stat := 0, buf := 0, sspif := false, bclif := false, ack_flag := 0 }

theorem snapSt_nil (s : MSt) (n : Nat) : snapSt s [] n = s := by
  simp [snapSt]

theorem snapSt_zero (s : MSt) (acts : List Act) : snapSt s acts 0 = s := rfl

theorem snapSt_cons (s : MSt) (a : Act) (acts : List Act) (n : Nat) :
    snapSt s (a :: acts) (n + 1) = snapSt (applyAct a s) acts n := rfl

theorem runWait_not_busy (busy : MSt → Bool) (acts : List Act) (s : MSt)
    (h : busy s = false) : runWait busy acts s = some (s, acts) := by
  cases acts <;> simp [runWait, h]

theorem runWait_busy_nil (busy : MSt → Bool) (s : MSt)
    (h : busy s = true) : runWait busy [] s = none := by
  simp [runWait, h]

theorem runWait_busy_cons (busy : MSt → Bool) (a : Act) (acts : List Act) (s : MSt)
    (h : busy s = true) : runWait busy (a :: acts) s = runWait busy acts (applyAct a s) := by
  simp [runWait, h]

/-- The loop exits exactly at the first snapshot where the exit condition
holds: completeness half. -/
theorem runWait_complete (busy : MSt → Bool) :
    ∀ (acts : List Act) (s : MSt) (n : Nat),
      busy (snapSt s acts n) = false →
      (∀ k < n, busy (snapSt s acts k) = true) →
      runWait busy acts s = some (snapSt s acts n, acts.drop n) := by
  intro acts
  induction acts with
  | nil =>
    intro s n h hmin
    rw [snapSt_nil] at h
    match n with
    | 0 => simp [snapSt_nil, runWait_not_busy busy [] s h]
    | m + 1 =>
      have := hmin 0 (Nat.succ_pos m)
      rw [snapSt_nil] at this
      rw [this] at h
      exact absurd h (by simp)
  | cons a rest ih =>
    intro s n h hmin
    match n with
    | 0 =>
      rw [snapSt_zero] at h
      rw [runWait_not_busy busy (a :: rest) s h]
      simp [snapSt_zero]
    | m + 1 =>
      have hb : busy s = true := by
        have := hmin 0 (Nat.succ_pos m); rwa [snapSt_zero] at this
      rw [runWait_busy_cons busy a rest s hb]
      rw [snapSt_cons] at h
      have hmin2 : ∀ k < m, busy (snapSt (applyAct a s) rest k) = true := by
        intro k hk
        have := hmin (k + 1) (Nat.succ_lt_succ hk)
        rwa [snapSt_cons] at this
      have := ih (applyAct a s) m h hmin2
      rw [this]
      rfl

/-- The loop exits exactly at the first snapshot where the exit condition
holds: soundness half. -/
theorem runWait_sound (busy : MSt → Bool) :
    ∀ (acts : List Act) (s : MSt) (s2 : MSt) (rest : List Act),
      runWait busy acts s = some (s2, rest) →
      ∃ n, n ≤ acts.length ∧ s2 = snapSt s acts n ∧ rest = acts.drop n ∧
        busy (snapSt s acts n) = false ∧ ∀ k < n, busy (snapSt s acts k) = true := by
  intro acts
  induction acts with
  | nil =>
    intro s s2 rest h
    cases hb : busy s with
    | false =>
      rw [runWait_not_busy busy [] s hb] at h
      refine ⟨0, by simp, ?_, ?_, ?_, ?_⟩ <;> simp_all [snapSt_nil]
    | true => rw [runWait_busy_nil busy s hb] at h; exact absurd h (by simp)
  | cons a rest0 ih =>
    intro s s2 rest h
    cases hb : busy s with
    | false =>
      rw [runWait_not_busy busy (a :: rest0) s hb] at h
      refine ⟨0, by simp, ?_, ?_, ?_, ?_⟩ <;> simp_all [snapSt_zero]
    | true =>
      rw [runWait_busy_cons busy a rest0 s hb] at h
      obtain ⟨n, hn, hs, hr, hbn, hmin⟩ := ih (applyAct a s) s2 rest h
      refine ⟨n + 1, by simpa using Nat.succ_le_succ hn, ?_, ?_, ?_, ?_⟩
      · rwa [snapSt_cons]
      · simpa using hr
      · rwa [snapSt_cons]
      · intro k hk
        match k with
        | 0 => rwa [snapSt_zero]
        | j + 1 =>
          rw [snapSt_cons]
          exact hmin j (Nat.lt_of_succ_lt_succ hk)

/-- The loop never exits iff every reachable snapshot keeps the loop busy. -/
theorem runWait_none_iff (busy : MSt → Bool) :
    ∀ (acts : List Act) (s : MSt),
      runWait busy acts s = none ↔ ∀ n ≤ acts.length, busy (snapSt s acts n) = true := by
  intro acts
  induction acts with
  | nil =>
    intro s
    constructor
    · intro h n hn
      have hn0 : n = 0 := Nat.le_zero.mp (by simpa using hn)
      subst hn0
      rw [snapSt_nil]
      cases hb : busy s with
      | false => rw [runWait_not_busy busy [] s hb] at h; exact absurd h (by simp)
      | true => rfl
    · intro h
      have := h 0 (by simp)
      rw [snapSt_nil] at this
      exact runWait_busy_nil busy s this
  | cons a rest ih =>
    intro s
    constructor
    · intro h n hn
      cases hb : busy s with
      | false => rw [runWait_not_busy busy (a :: rest) s hb] at h; exact absurd h (by simp)
      | true =>
        rw [runWait_busy_cons busy a rest s hb] at h
        match n with
        | 0 => rwa [snapSt_zero]
        | m + 1 =>
          rw [snapSt_cons]
          exact (ih (applyAct a s)).mp h m (Nat.le_of_succ_le_succ hn)
    · intro h
      have hb : busy s = true := by have := h 0 (by simp); rwa [snapSt_zero] at this
      rw [runWait_busy_cons busy a rest s hb]
      exact (ih (applyAct a s)).mpr (fun n hn => by
        have := h (n + 1) (by simpa using Nat.succ_le_succ hn)
        rwa [snapSt_cons] at this)

/-- Running a concatenation of statement lists is running them in sequence. -/
theorem interp_append :
    ∀ (l1 l2 : List Ev) (acts : List Act) (s : MSt) (dt : Nat),
      interp (l1 ++ l2) acts s dt =
        match interp l1 acts s dt with
        | none => none
        | some (s2, acts2, dt2) => interp l2 acts2 s2 dt2 := by
  intro l1
  induction l1 with
  | nil => intro l2 acts s dt; rfl
  | cons e l ih =>
    intro l2 acts s dt
    cases e with
    | waitIdle m =>
      show interp (Ev.waitIdle m :: (l ++ l2)) acts s dt = _
      simp only [interp]
      cases h : i2c_check_idle m acts s with
      | none => rfl
      | some p => obtain ⟨s2, acts2⟩ := p; simp [ih]
    | waitAck =>
      show interp (Ev.waitAck :: (l ++ l2)) acts s dt = _
      simp only [interp]
      cases h : runWait ackBusy acts s with
      | none => rfl
      | some p => obtain ⟨s2, acts2⟩ := p; simp [ih]
    | readBuf => simp only [List.cons_append, interp]; exact ih l2 acts s s.buf
    | setBit i => simp only [List.cons_append, interp]; exact ih l2 acts (evStep (Ev.setBit i) s) dt
    | setAckdt v => simp only [List.cons_append, interp]; exact ih l2 acts (evStep (Ev.setAckdt v) s) dt
    | armFlag => simp only [List.cons_append, interp]; exact ih l2 acts (evStep Ev.armFlag s) dt
    | loadBuf v => simp only [List.cons_append, interp]; exact ih l2 acts (evStep (Ev.loadBuf v) s) dt

/-- A statement list with no `SSPBUF` read leaves the `dt` local unchanged. -/
theorem interp_no_readBuf :
    ∀ (l : List Ev), (∀ e ∈ l, e ≠ Ev.readBuf) →
      ∀ (acts : List Act) (s : MSt) (dt : Nat) (s2 : MSt) (acts2 : List Act) (dt2 : Nat),
        interp l acts s dt = some (s2, acts2, dt2) → dt2 = dt := by
  intro l
  induction l with
  | nil => intro _ acts s dt s2 acts2 dt2 h; simp [interp] at h; exact h.2.2.symm
  | cons e rest ih =>
    intro hmem acts s dt s2 acts2 dt2 h
    have hrest : ∀ e ∈ rest, e ≠ Ev.readBuf := fun x hx => hmem x (List.mem_cons_of_mem e hx)
    cases e with
    | waitIdle m =>
      simp only [interp] at h
      cases hc : i2c_check_idle m acts s with
      | none => rw [hc] at h; exact absurd h (by simp)
      | some p => obtain ⟨s3, acts3⟩ := p; rw [hc] at h; exact ih hrest acts3 s3 dt s2 acts2 dt2 h
    | waitAck =>
      simp only [interp] at h
      cases hc : runWait ackBusy acts s with
      | none => rw [hc] at h; exact absurd h (by simp)
      | some p => obtain ⟨s3, acts3⟩ := p; rw [hc] at h; exact ih hrest acts3 s3 dt s2 acts2 dt2 h
    | readBuf => exact absurd rfl (hmem Ev.readBuf (List.mem_cons_self _ _))
    | setBit i => exact ih hrest acts _ dt s2 acts2 dt2 h
    | setAckdt v => exact ih hrest acts _ dt s2 acts2 dt2 h
    | armFlag => exact ih hrest acts _ dt s2 acts2 dt2 h
    | loadBuf v => exact ih hrest acts _ dt s2 acts2 dt2 h

/-- An environment step changes `ack_flag` only when it is the interrupt
dispatch clearing an armed flag with the completion signal pending. -/
theorem applyAct_flag_change (a : Act) (s : MSt)
    (h : (applyAct a s).ack_flag ≠ s.ack_flag) :
    a = Act.irq ∧ s.sspif = true ∧ s.ack_flag = 1 ∧ (applyAct a s).ack_flag = 0 := by
  cases a with
  | hw c t b => exact absurd rfl h
  | raiseSSPIF => exact absurd rfl h
  | raiseBCLIF => exact absurd rfl h
  | irq =>
    by_cases hs : s.sspif <;> by_cases hf : s.ack_flag = 1 <;>
      by_cases hb : s.bclif <;>
      simp [applyAct, i2c_interrupt, hs, hf, hb] at h ⊢

/-- After an environment step, the flag is clear iff it was already clear or
the step was a matching interrupt dispatch. -/
theorem applyAct_flag_zero_iff (a : Act) (s : MSt) :
    (applyAct a s).ack_flag = 0 ↔
      (s.ack_flag = 0 ∨ (a = Act.irq ∧ s.sspif = true ∧ s.ack_flag = 1)) := by
  cases a with
  | hw c t b => simp [applyAct]
  | raiseSSPIF => simp [applyAct]
  | raiseBCLIF => simp [applyAct]
  | irq =>
    by_cases hs : s.sspif <;> by_cases hf : s.ack_flag = 1 <;>
      by_cases hb : s.bclif <;>
      simp [applyAct, i2c_interrupt, hs, hf, hb]

theorem nat_or_eq_zero (a b : Nat) : a ||| b = 0 ↔ a = 0 ∧ b = 0 := by
  constructor
  · intro h
    constructor
    · apply Nat.eq_of_testBit_eq
      intro i
      have := congrArg (fun x => x.testBit i) h
      simp [Nat.testBit_or] at this
      simp [this.1]
    · apply Nat.eq_of_testBit_eq
      intro i
      have := congrArg (fun x => x.testBit i) h
      simp [Nat.testBit_or] at this
      simp [this.2]
  · rintro ⟨rfl, rfl⟩; rfl

theorem nat_and31_eq_zero_iff (c : Nat) : c &&& 31 = 0 ↔
    (c.testBit 0 = false ∧ c.testBit 1 = false ∧ c.testBit 2 = false ∧
     c.testBit 3 = false ∧ c.testBit 4 = false) := by
  have h31 : c &&& 31 = c % 32 := by
    have := Nat.and_pow_two_sub_one_eq_mod c 5
    norm_num at this
    exact this
  rw [h31]
  simp only [Nat.testBit_to_div_mod]
  constructor
  · intro h
    refine ⟨?_, ?_, ?_, ?_, ?_⟩ <;> simp <;> omega
  · intro ⟨h0, h1, h2, h3, h4⟩
    simp at h0 h1 h2 h3 h4
    omega

theorem snapSt_succ (s : MSt) (acts : List Act) (n : Nat) (h : n < acts.length) :
    snapSt s acts (n + 1) = applyAct acts[n] (snapSt s acts n) := by
  have ht : acts.take (n + 1) = acts.take n ++ [acts[n]] := by
    rw [List.take_succ, List.getElem?_eq_getElem h]
    rfl
  unfold snapSt
  rw [ht, List.foldl_append]
  rfl

theorem snapSt_stable (s : MSt) (acts : List Act) (n : Nat) (h : acts.length ≤ n) :
    snapSt s acts n = snapSt s acts acts.length := by
  simp [snapSt, List.take_of_length_le h, List.take_of_length_le (Nat.le_refl _)]

theorem matchingSignal_lt_length (s : MSt) (acts : List Act) (i : Nat)
    (h : matchingSignal s acts i) : i < acts.length := by
  obtain ⟨h1, -, -⟩ := h
  exact (List.getElem?_eq_some.mp h1).1

/-- From an armed state, the flag is clear after `n` environment steps iff a
matching interrupt dispatch occurred strictly before step `n`. -/
theorem flag_snap_zero_iff (s : MSt) (acts : List Act) (hs : s.ack_flag = 1) :
    ∀ n, ((snapSt s acts n).ack_flag = 0 ↔ ∃ i, i < n ∧ matchingSignal s acts i) := by
  intro n
  induction n with
  | zero => simp [snapSt_zero, hs]
  | succ m ih =>
    by_cases hm : m < acts.length
    · rw [snapSt_succ s acts m hm, applyAct_flag_zero_iff, ih]
      constructor
      · intro h
        cases h with
        | inl h => obtain ⟨i, hi, hmi⟩ := h; exact ⟨i, Nat.lt_succ_of_lt hi, hmi⟩
        | inr h =>
          refine ⟨m, Nat.lt_succ_self m, ?_, h.2.1, h.2.2⟩
          rw [List.getElem?_eq_getElem hm, h.1]
      · intro ⟨i, hi, hmi⟩
        rcases Nat.lt_succ_iff_lt_or_eq.mp hi with hlt | heq
        · exact Or.inl ⟨i, hlt, hmi⟩
        · subst heq
          obtain ⟨h1, h2, h3⟩ := hmi
          rw [List.getElem?_eq_getElem hm] at h1
          exact Or.inr ⟨Option.some_inj.mp h1, h2, h3⟩
    · push_neg at hm
      rw [snapSt_stable s acts (m + 1) (Nat.le_succ_of_le hm),
        ← snapSt_stable s acts m hm, ih]
      constructor
      · intro ⟨i, hi, hmi⟩; exact ⟨i, Nat.lt_succ_of_lt hi, hmi⟩
      · intro ⟨i, hi, hmi⟩
        have := matchingSignal_lt_length s acts i hmi
        exact ⟨i, by omega, hmi⟩

/-- Agreement on `(ack_flag, sspif)` between two states is preserved by every
environment step. -/
theorem applyAct_agree (a : Act) (s t : MSt)
    (hf : s.ack_flag = t.ack_flag) (hp : s.sspif = t.sspif) :
    (applyAct a s).ack_flag = (applyAct a t).ack_flag ∧
    (applyAct a s).sspif = (applyAct a t).sspif := by
  cases a with
  | hw c u b => simp [applyAct, hf, hp]
  | raiseSSPIF => simp [applyAct, hf]
  | raiseBCLIF => simp [applyAct, hf, hp]
  | irq =>
    by_cases hs : s.sspif <;> by_cases hb : s.bclif <;> by_cases htb : t.bclif <;>
      by_cases hff : s.ack_flag = 1 <;>
      simp_all [applyAct, i2c_interrupt]

/-- Two handshake waits behave identically when the states agree on the flag
and on the pending completion signal. -/
theorem runWait_ack_agree_full :
    ∀ (acts : List Act) (s t : MSt),
      s.ack_flag = t.ack_flag → s.sspif = t.sspif →
      consumedCount (runWait ackBusy acts s) = consumedCount (runWait ackBusy acts t) := by
  intro acts
  induction acts with
  | nil =>
    intro s t hf _
    have hb : ackBusy s = ackBusy t := by simp [ackBusy, hf]
    cases h : ackBusy t with
    | false =>
      rw [runWait_not_busy _ _ s (hb.trans h), runWait_not_busy _ _ t h]
      rfl
    | true => rw [runWait_busy_nil _ s (hb.trans h), runWait_busy_nil _ t h]
  | cons a rest ih =>
    intro s t hf hp
    have hb : ackBusy s = ackBusy t := by simp [ackBusy, hf]
    cases h : ackBusy t with
    | false =>
      rw [runWait_not_busy _ _ s (hb.trans h), runWait_not_busy _ _ t h]
      rfl
    | true =>
      rw [runWait_busy_cons _ a rest s (hb.trans h), runWait_busy_cons _ a rest t h]
      obtain ⟨hf2, hp2⟩ := applyAct_agree a s t hf hp
      exact ih _ _ hf2 hp2

/-- Two handshake waits behave identically when the states agree on the flag
and the environment raises a fresh completion signal before dispatching any
interrupt. -/
theorem runWait_ack_agree_fresh :
    ∀ (acts : List Act) (s t : MSt),
      s.ack_flag = t.ack_flag → raiseBeforeIrq acts = true →
      consumedCount (runWait ackBusy acts s) = consumedCount (runWait ackBusy acts t) := by
  intro acts
  induction acts with
  | nil =>
    intro s t hf _
    have hb : ackBusy s = ackBusy t := by simp [ackBusy, hf]
    cases h : ackBusy t with
    | false =>
      rw [runWait_not_busy _ _ s (hb.trans h), runWait_not_busy _ _ t h]
      rfl
    | true => rw [runWait_busy_nil _ s (hb.trans h), runWait_busy_nil _ t h]
  | cons a rest ih =>
    intro s t hf hr
    have hb : ackBusy s = ackBusy t := by simp [ackBusy, hf]
    cases h : ackBusy t with
    | false =>
      rw [runWait_not_busy _ _ s (hb.trans h), runWait_not_busy _ _ t h]
      rfl
    | true =>
      rw [runWait_busy_cons _ a rest s (hb.trans h), runWait_busy_cons _ a rest t h]
      cases a with
      | irq => simp [raiseBeforeIrq] at hr
      | raiseSSPIF =>
        refine runWait_ack_agree_full rest _ _ ?_ ?_ <;> simp [applyAct, hf]
      | hw c u b =>
        refine ih _ _ ?_ (by simpa [raiseBeforeIrq] using hr)
        simp [applyAct, hf]
      | raiseBCLIF =>
        refine ih _ _ ?_ (by simpa [raiseBeforeIrq] using hr)
        simp [applyAct, hf]

/-- Any statement list ending in the handshake wait leaves `ack_flag` clear
when it terminates: the wait exits only once the flag is 0, and nothing runs
after it. -/
theorem interp_waitAck_last (l : List Ev) :
    ∀ (acts : List Act) (s : MSt) (dt : Nat) (s2 : MSt) (acts2 : List Act) (dt2 : Nat),
      interp (l ++ [Ev.waitAck]) acts s dt = some (s2, acts2, dt2) → s2.ack_flag = 0 := by
  intro acts s dt s2 acts2 dt2 h
  rw [interp_append] at h
  cases hi : interp l acts s dt with
  | none => rw [hi] at h; exact absurd h (by simp)
  | some p =>
    obtain ⟨t, acts1, dt1⟩ := p
    rw [hi] at h
    simp only [interp] at h
    cases hr : runWait ackBusy acts1 t with
    | none => rw [hr] at h; exact absurd h (by simp)
    | some q =>
      obtain ⟨s3, acts3⟩ := q
      rw [hr] at h
      simp only [interp, Option.some_inj] at h
      obtain ⟨n, -, -, -, hb, -⟩ := runWait_sound ackBusy acts1 t s3 acts3 hr
      have h3 : s3.ack_flag = 0 := by
        obtain ⟨n2, -, hs3, -, hb2, -⟩ := runWait_sound ackBusy acts1 t s3 acts3 hr
        rw [hs3]
        simpa [ackBusy] using hb2
      have : s2 = s3 := by
        have := h
        cases this
        rfl
      rw [this]
      exact h3

/-- A `runAddrOp` over a statement list ending in the handshake wait returns
the `ACKSTAT` bit of the post-handshake state, and that state has the flag
clear. -/
theorem runAddrOp_waitAck (l : List Ev) (acts : List Act) (s : MSt)
    (r : Nat) (s2 : MSt) (acts2 : List Act)
    (h : runAddrOp (l ++ [Ev.waitAck]) acts s = some (r, s2, acts2)) :
    s2.ack_flag = 0 ∧ r = ackstatVal s2 := by
  unfold runAddrOp at h
  cases hi : interp (l ++ [Ev.waitAck]) acts s 0 with
  | none => rw [hi] at h; exact absurd h (by simp)
  | some p =>
    obtain ⟨s3, acts3, dt3⟩ := p
    rw [hi] at h
    injection h with h2
    injection h2 with hr h3
    injection h3 with hs ha
    subst hs
    subst hr
    exact ⟨interp_waitAck_last l acts s 0 s3 acts3 dt3 hi, rfl⟩

/-- C1: the byte loaded into the transmit buffer by `i2c_start(a, d)` (and by
`i2c_rstart(a, d)`) after the start (repeated-start) condition is
`((a << 1) + d) mod 256`; in particular address `0x50` transmits `0xA0` for
direction 0 and `0xA1` for direction 1, and out-of-range address bits are
folded into the shifted byte without validation (e.g. `a = 0xFF, d = 1`
transmits `0xFF`). -/
theorem c1_address_framing :
    (∀ a d : Nat,
      loadedByte (i2c_start_tr a d) = some (((a <<< 1) + d) % 256) ∧
      loadedByte (i2c_rstart_tr a d) = some (((a <<< 1) + d) % 256) ∧
      ((a <<< 1) + d) % 256 = (2 * a + d) % 256) ∧
    loadedByte (i2c_start_tr 0x50 0) = some 0xA0 ∧
    loadedByte (i2c_start_tr 0x50 1) = some 0xA1 ∧
    loadedByte (i2c_rstart_tr 0x50 0) = some 0xA0 ∧
    loadedByte (i2c_rstart_tr 0x50 1) = some 0xA1 ∧
    loadedByte (i2c_start_tr 0xFF 1) = some 0xFF := by
  refine ⟨?_, by decide, by decide, by decide, by decide, by decide⟩
  intro a d
  refine ⟨rfl, rfl, ?_⟩
  rw [Nat.shiftLeft_eq, pow_one, Nat.mul_comm]

/-- C7: on an invocation of the interrupt handler `i2c_interrupt`: the flag is
cleared exactly when the completion signal is pending and the flag was armed
(in particular an armed flag is cleared on a completion-signal invocation);
the pending completion indicator `SSPIF` is clear afterwards even when the
flag was already clear; the bus-collision indicator `BCLIF` is cleared
unconditionally; and nothing else changes — no status is surfaced. -/
theorem c7_interrupt_handler (s : MSt) :
    (i2c_interrupt s).sspif = false ∧
    (i2c_interrupt s).bclif = false ∧
    (i2c_interrupt s).ack_flag =
      (if s.sspif = true ∧ s.ack_flag = 1 then 0 else s.ack_flag) ∧
    (i2c_interrupt s).con2 = s.con2 ∧
    (i2c_interrupt s).stat = s.stat ∧
    (i2c_interrupt s).buf = s.buf := by
  by_cases hs : s.sspif <;> by_cases hf : s.ack_flag = 1 <;> by_cases hb : s.bclif <;>
    simp [i2c_interrupt, hs, hf, hb]

/-- C8: `i2c_rstart` performs the same sequence as `i2c_start` — its statement
list is the image of `i2c_start`'s under the substitution sending the
start-condition assertion to the repeated-start assertion; the busy-waits and
the transmitted address byte coincide, and both functions compute their
return value through the same wrapper `runAddrOp` (read `ACKSTAT` after the
handshake). -/
theorem c8_rstart_refines_start :
    (∀ a d : Nat,
      i2c_rstart_tr a d = (i2c_start_tr a d).map startToRstart ∧
      (i2c_rstart_tr a d).filter isWaitEv = (i2c_start_tr a d).filter isWaitEv ∧
      loadedByte (i2c_rstart_tr a d) = loadedByte (i2c_start_tr a d) ∧
      (∀ acts s, i2c_rstart a d acts s =
        runAddrOp ((i2c_start_tr a d).map startToRstart) acts s) ∧
      (∀ acts s, i2c_start a d acts s = runAddrOp (i2c_start_tr a d) acts s)) ∧
    startToRstart (Ev.setBit 0) = Ev.setBit 1 ∧
    (∀ m : Nat, startToRstart (Ev.waitIdle m) = Ev.waitIdle m) ∧
    (∀ v : Nat, startToRstart (Ev.loadBuf v) = Ev.loadBuf v) ∧
    startToRstart Ev.armFlag = Ev.armFlag ∧
    startToRstart Ev.waitAck = Ev.waitAck := by
  exact ⟨fun a d => ⟨rfl, rfl, rfl, fun acts s => rfl, fun acts s => rfl⟩,
    rfl, fun m => rfl, fun v => rfl, rfl, rfl⟩

/-- C9: `i2c_init_master` programs the clock divisor `SSPADD = 0x77`, which is
the value of `divisor = CPU_clock / (4 × bus_rate) − 1` for the configured
48 MHz CPU clock and 100 kHz bus rate, namely 119. -/
theorem c9_clock_divisor :
    clockDivisor 48000000 100000 = 119 ∧
    i2c_init_master.sspadd = 0x77 ∧
    i2c_init_master.sspadd = clockDivisor 48000000 100000 ∧
    (0x77 : Nat) = 119 := by
  decide

/-- C5 as stated is false at `i2c_stop`: from an idle state and an empty
environment, `i2c_stop` returns immediately after asserting the stop
condition, with `PEN` (bit 2 of `SSPCON2`) still set — it does not block
until hardware confirms completion of the condition it asserted (its
statement list, like `i2c_receive`'s, ends on a condition assertion with no
wait after it). -/
theorem c5_counterexample :
    i2c_stop [] mstIdle = some ({ mstIdle with con2 := 4 }, []) ∧
    ({ mstIdle with con2 := 4 } : MSt).con2.testBit 2 = true ∧
    assertsAwaited i2c_stop_tr = false ∧
    i2c_stop_tr.getLast? = some (Ev.setBit 2) ∧
    assertsAwaited (i2c_receive_tr 0) = false ∧
    (i2c_receive_tr 0).getLast? = some (Ev.setBit 4) := by
  decide

/-- C5 amended: `i2c_start`, `i2c_rstart` and `i2c_send` block until the
byte-level handshake completes before returning (they end on the handshake
wait, and each condition they assert is followed by a wait); `i2c_stop` and
`i2c_receive` assert their final condition (stop resp. acknowledge) and
return without waiting for its completion; but every primitive begins with
`i2c_check_idle(0x5)`, so the terminal state is Idle from the perspective of
the next primitive's precondition — the next call blocks until the previous
condition has cleared. -/
theorem c5_amended (a d dt ack : Nat) :
    assertsAwaited (i2c_start_tr a d) = true ∧
    assertsAwaited (i2c_rstart_tr a d) = true ∧
    assertsAwaited (i2c_send_tr dt) = true ∧
    endsWithWait (i2c_start_tr a d) = true ∧
    endsWithWait (i2c_rstart_tr a d) = true ∧
    endsWithWait (i2c_send_tr dt) = true ∧
    endsWithWait i2c_stop_tr = false ∧
    endsWithWait (i2c_receive_tr ack) = false ∧
    (i2c_start_tr a d).head? = some (Ev.waitIdle 0x5) ∧
    (i2c_rstart_tr a d).head? = some (Ev.waitIdle 0x5) ∧
    i2c_stop_tr.head? = some (Ev.waitIdle 0x5) ∧
    (i2c_send_tr dt).head? = some (Ev.waitIdle 0x5) ∧
    (i2c_receive_tr ack).head? = some (Ev.waitIdle 0x5) := by
  refine ⟨rfl, rfl, rfl, ?_, ?_, ?_, by decide, ?_, rfl, rfl, rfl, rfl, rfl⟩ <;>
    simp [endsWithWait, i2c_start_tr, i2c_rstart_tr, i2c_send_tr, i2c_receive_tr, isWaitEv]

/-- C2: whenever `i2c_start`, `i2c_rstart` or `i2c_send` returns, the
byte-level handshake has completed (`ack_flag` is 0 again) and the return
value is the `ACKSTAT` bit read at that point: 1 exactly when the peer did
not acknowledge (`ACKSTAT` set), 0 exactly when it acknowledged. -/
theorem c2_ack_propagation :
    (∀ a d acts s r s2 acts2, i2c_start a d acts s = some (r, s2, acts2) →
      s2.ack_flag = 0 ∧ r = ackstatVal s2 ∧
      (r = 1 ↔ s2.con2.testBit 6 = true) ∧ (r = 0 ↔ s2.con2.testBit 6 = false)) ∧
    (∀ a d acts s r s2 acts2, i2c_rstart a d acts s = some (r, s2, acts2) →
      s2.ack_flag = 0 ∧ r = ackstatVal s2 ∧
      (r = 1 ↔ s2.con2.testBit 6 = true) ∧ (r = 0 ↔ s2.con2.testBit 6 = false)) ∧
    (∀ dt acts s r s2 acts2, i2c_send dt acts s = some (r, s2, acts2) →
      s2.ack_flag = 0 ∧ r = ackstatVal s2 ∧
      (r = 1 ↔ s2.con2.testBit 6 = true) ∧ (r = 0 ↔ s2.con2.testBit 6 = false)) := by
  refine ⟨?_, ?_, ?_⟩
  · intro a d acts s r s2 acts2 h
    have h2 : runAddrOp ([Ev.waitIdle 0x5, Ev.setBit 0, Ev.waitIdle 0x5, Ev.armFlag,
        Ev.loadBuf (((a <<< 1) + d) % 256)] ++ [Ev.waitAck]) acts s = some (r, s2, acts2) := h
    obtain ⟨hz, hr⟩ := runAddrOp_waitAck _ acts s r s2 acts2 h2
    refine ⟨hz, hr, ?_, ?_⟩ <;> rw [hr] <;> unfold ackstatVal <;>
      by_cases hb : s2.con2.testBit 6 <;> simp [hb]
  · intro a d acts s r s2 acts2 h
    have h2 : runAddrOp ([Ev.waitIdle 0x5, Ev.setBit 1, Ev.waitIdle 0x5, Ev.armFlag,
        Ev.loadBuf (((a <<< 1) + d) % 256)] ++ [Ev.waitAck]) acts s = some (r, s2, acts2) := h
    obtain ⟨hz, hr⟩ := runAddrOp_waitAck _ acts s r s2 acts2 h2
    refine ⟨hz, hr, ?_, ?_⟩ <;> rw [hr] <;> unfold ackstatVal <;>
      by_cases hb : s2.con2.testBit 6 <;> simp [hb]
  · intro dt acts s r s2 acts2 h
    have h2 : runAddrOp ([Ev.waitIdle 0x5, Ev.armFlag, Ev.loadBuf (dt % 256)] ++
        [Ev.waitAck]) acts s = some (r, s2, acts2) := h
    obtain ⟨hz, hr⟩ := runAddrOp_waitAck _ acts s r s2 acts2 h2
    refine ⟨hz, hr, ?_, ?_⟩ <;> rw [hr] <;> unfold ackstatVal <;>
      by_cases hb : s2.con2.testBit 6 <;> simp [hb]

/-- Witness for C2: a concrete terminating `i2c_send` run (idle bus with
`ACKSTAT` clear, completion signal raised then dispatched) returns 0, and a
run with `ACKSTAT` set (bit 6, value 64) returns 1. -/
theorem c2_ack_propagation_witness :
    (((0 : Nat) = 1 ↔
        ({ con2 := 0, stat := 0, buf := 16, sspif := false, bclif := false,
           ack_flag := 0 } : MSt).con2.testBit 6 = true) ∧
      ((0 : Nat) = 0 ↔
        ({ con2 := 0, stat := 0, buf := 16, sspif := false, bclif := false,
           ack_flag := 0 } : MSt).con2.testBit 6 = false)) ∧
    ((1 : Nat) = 1 ↔
      ({ con2 := 64, stat := 0, buf := 32, sspif := false, bclif := false,
         ack_flag := 0 } : MSt).con2.testBit 6 = true) := by
  refine ⟨?_, ?_⟩
  · have := c2_ack_propagation.2.2 0x10 [Act.raiseSSPIF, Act.irq] mstIdle 0
      { con2 := 0, stat := 0, buf := 16, sspif := false, bclif := false, ack_flag := 0 }
      [] (by decide)
    exact ⟨this.2.2.1, this.2.2.2⟩
  · have := c2_ack_propagation.2.2 0x20 [Act.raiseSSPIF, Act.irq]
      { mstIdle with con2 := 64 } 1
      { con2 := 64, stat := 0, buf := 32, sspif := false, bclif := false, ack_flag := 0 }
      [] (by decide)
    exact this.2.2.1

/-- C3: `i2c_receive(ack)` performs exactly: wait for idle (mask `0x5`),
enable receive mode (`RCEN`), wait for idle on the narrower mask `0x4` that
excludes the buffer-full bit `BF` (bit 0, the in-flight-byte indicator), read
`SSPBUF`, wait for idle again, set the acknowledgement bit `ACKDT` to the
caller's value (bit = `ack mod 2`, so 0 = ACK, 1 = NACK), and assert the
acknowledge-send condition `ACKEN`; whenever it returns, the returned value
is the byte that was read from the receive buffer after the narrow wait. -/
theorem c3_receive_sequence :
    (∀ ack : Nat, i2c_receive_tr ack =
      [Ev.waitIdle 0x5, Ev.setBit 3, Ev.waitIdle 0x4, Ev.readBuf,
       Ev.waitIdle 0x5, Ev.setAckdt ack, Ev.setBit 4]) ∧
    (∀ v s, ((writeAckdt v s).con2.testBit 5 = true ↔ v % 2 = 1)) ∧
    ((0x5 : Nat).testBit 0 = true ∧ (0x4 : Nat).testBit 0 = false ∧
      (0x4 : Nat) &&& 0x1 = 0) ∧
    (∀ ack acts s v s2 acts2, i2c_receive ack acts s = some (v, s2, acts2) →
      ∃ t acts1, interp [Ev.waitIdle 0x5, Ev.setBit 3, Ev.waitIdle 0x4] acts s 0 =
        some (t, acts1, 0) ∧ v = t.buf) := by
  refine ⟨fun ack => rfl, ?_, by decide, ?_⟩
  · intro v s
    have h32 : Nat.testBit 0x20 5 = true := by decide
    have hDF : Nat.testBit 0xDF 5 = false := by decide
    unfold writeAckdt
    by_cases hv : v % 2 = 1 <;>
      simp [hv, Nat.testBit_or, Nat.testBit_and, h32, hDF]
  · intro ack acts s v s2 acts2 h
    unfold i2c_receive at h
    cases hi : interp (i2c_receive_tr ack) acts s 0 with
    | none => rw [hi] at h; exact absurd h (by simp)
    | some p =>
      obtain ⟨s3, acts3, dt3⟩ := p
      rw [hi] at h
      injection h with h2
      injection h2 with hv h3
      have hi2 : interp ([Ev.waitIdle 0x5, Ev.setBit 3, Ev.waitIdle 0x4] ++
          (Ev.readBuf :: [Ev.waitIdle 0x5, Ev.setAckdt ack, Ev.setBit 4])) acts s 0 =
          some (s3, acts3, dt3) := hi
      rw [interp_append] at hi2
      cases hp : interp [Ev.waitIdle 0x5, Ev.setBit 3, Ev.waitIdle 0x4] acts s 0 with
      | none => rw [hp] at hi2; exact absurd hi2 (by simp)
      | some q =>
        obtain ⟨t, acts1, d1⟩ := q
        rw [hp] at hi2
        have hd1 : d1 = 0 :=
          interp_no_readBuf _ (by decide) acts s 0 t acts1 d1 hp
        simp only [interp] at hi2
        have hdt : dt3 = t.buf := by
          refine interp_no_readBuf [Ev.waitIdle 0x5, Ev.setAckdt ack, Ev.setBit 4]
            ?_ acts1 t t.buf s3 acts3 dt3 hi2
          intro e he
          simp at he
          rcases he with rfl | rfl | rfl <;> simp
        refine ⟨t, acts1, ?_, ?_⟩
        · rw [hd1]
        · rw [← hv, hdt]

/-- Witness for C3: a concrete terminating `i2c_receive(1)` run in which the
hardware delivers the byte `0x42`; the pre-sequence reads the byte into the
local and the call returns it. -/
theorem c3_receive_sequence_witness :
    ∃ t acts1,
      interp [Ev.waitIdle 0x5, Ev.setBit 3, Ev.waitIdle 0x4] [Act.hw 0 0 0x42] mstIdle 0 =
        some (t, acts1, 0) ∧ (0x42 : Nat) = t.buf :=
  c3_receive_sequence.2.2.2 1 [Act.hw 0 0 0x42] mstIdle 0x42
    { con2 := 0x30, stat := 0, buf := 0x42, sspif := false, bclif := false, ack_flag := 0 }
    [] (by decide)

/-- C4: `i2c_check_idle(m)` returns at precisely the first hardware snapshot
in which all five condition-active bits of `SSPCON2` (`SEN`, `RSEN`, `PEN`,
`RCEN`, `ACKEN`, bits 0–4) are zero and all `SSPSTAT` bits selected by `m`
are zero; while a selected bit is set it keeps polling, and if no reachable
snapshot is clear it does not return within any finite environment. -/
theorem c4_wait_idle (m : Nat) (acts : List Act) (s : MSt) :
    (∀ n, idleBusy m (snapSt s acts n) = false →
      (∀ k < n, idleBusy m (snapSt s acts k) = true) →
      i2c_check_idle m acts s = some (snapSt s acts n, acts.drop n)) ∧
    (∀ s2 rest, i2c_check_idle m acts s = some (s2, rest) →
      ∃ n, n ≤ acts.length ∧ s2 = snapSt s acts n ∧ rest = acts.drop n ∧
        idleBusy m (snapSt s acts n) = false ∧
        ∀ k < n, idleBusy m (snapSt s acts k) = true) ∧
    (i2c_check_idle m acts s = none ↔
      ∀ n ≤ acts.length, idleBusy m (snapSt s acts n) = true) ∧
    (∀ t : MSt, idleBusy m t = false ↔
      (t.con2.testBit 0 = false ∧ t.con2.testBit 1 = false ∧ t.con2.testBit 2 = false ∧
       t.con2.testBit 3 = false ∧ t.con2.testBit 4 = false ∧ t.stat &&& m = 0)) := by
  refine ⟨?_, ?_, ?_, ?_⟩
  · intro n h hmin
    exact runWait_complete (idleBusy m) acts s n h hmin
  · intro s2 rest h
    exact runWait_sound (idleBusy m) acts s s2 rest h
  · exact runWait_none_iff (idleBusy m) acts s
  · intro t
    unfold idleBusy
    simp only [decide_eq_false_iff_not, ne_eq, not_not]
    rw [nat_or_eq_zero]
    have h31 := nat_and31_eq_zero_iff t.con2
    tauto

/-- Witness for C4: an already-idle snapshot makes the wait return at index 0
with the whole environment unconsumed. -/
theorem c4_wait_idle_witness :
    i2c_check_idle 0x5 [Act.raiseSSPIF] mstIdle = some (mstIdle, [Act.raiseSSPIF]) :=
  (c4_wait_idle 0x5 [Act.raiseSSPIF] mstIdle).1 0 (by decide)
    (fun k hk => absurd hk (Nat.not_lt_zero k))

/-- C6: the arm/clear rendezvous between `while (ack_flag);` and
`i2c_interrupt`. From an armed state the wait returns exactly at the first
interrupt dispatch that finds the completion signal pending and the flag set
(consuming precisely the environment steps up to and including that dispatch,
after which the flag is clear); it never returns when no such dispatch
occurs; and a spurious interrupt dispatch made while the flag is already
clear does not affect the observable behaviour of a later arm/wait pair,
given that the later pair's environment raises its own completion signal
before its first dispatch. -/
theorem c6_rendezvous :
    (∀ (s : MSt) (acts : List Act) (i : Nat),
      matchingSignal (armFlagSt s) acts i →
      (∀ k < i, ¬ matchingSignal (armFlagSt s) acts k) →
      runWait ackBusy acts (armFlagSt s) =
        some (snapSt (armFlagSt s) acts (i + 1), acts.drop (i + 1)) ∧
      (snapSt (armFlagSt s) acts (i + 1)).ack_flag = 0) ∧
    (∀ (s : MSt) (acts : List Act),
      runWait ackBusy acts (armFlagSt s) = none ↔
      ∀ i, ¬ matchingSignal (armFlagSt s) acts i) ∧
    (∀ (s : MSt) (acts : List Act),
      s.ack_flag = 0 → raiseBeforeIrq acts = true →
      consumedCount (runWait ackBusy acts (armFlagSt (i2c_interrupt s))) =
      consumedCount (runWait ackBusy acts (armFlagSt s))) := by
  refine ⟨?_, ?_, ?_⟩
  · intro s acts i hm hmin
    have hflag : (armFlagSt s).ack_flag = 1 := rfl
    have hzero := flag_snap_zero_iff (armFlagSt s) acts hflag
    have hz1 : (snapSt (armFlagSt s) acts (i + 1)).ack_flag = 0 :=
      (hzero (i + 1)).mpr ⟨i, Nat.lt_succ_self i, hm⟩
    have hbusy : ∀ k < i + 1, ackBusy (snapSt (armFlagSt s) acts k) = true := by
      intro k hk
      have hne : ¬ (snapSt (armFlagSt s) acts k).ack_flag = 0 := by
        rw [hzero k]
        rintro ⟨j, hj, hmj⟩
        exact hmin j (lt_of_lt_of_le hj (Nat.lt_succ_iff.mp hk)) hmj
      simpa [ackBusy] using hne
    have hdone : ackBusy (snapSt (armFlagSt s) acts (i + 1)) = false := by
      simp [ackBusy, hz1]
    exact ⟨runWait_complete ackBusy acts (armFlagSt s) (i + 1) hdone hbusy, hz1⟩
  · intro s acts
    have hflag : (armFlagSt s).ack_flag = 1 := rfl
    have hzero := flag_snap_zero_iff (armFlagSt s) acts hflag
    rw [runWait_none_iff]
    constructor
    · intro h i hmi
      have hlt := matchingSignal_lt_length (armFlagSt s) acts i hmi
      have hb := h (i + 1) (by omega)
      have hz : (snapSt (armFlagSt s) acts (i + 1)).ack_flag = 0 :=
        (hzero (i + 1)).mpr ⟨i, Nat.lt_succ_self i, hmi⟩
      simp [ackBusy, hz] at hb
    · intro h n _
      have hne : ¬ (snapSt (armFlagSt s) acts n).ack_flag = 0 := by
        rw [hzero n]
        rintro ⟨j, -, hmj⟩
        exact h j hmj
      simpa [ackBusy] using hne
  · intro s acts _ hr
    exact runWait_ack_agree_fresh acts (armFlagSt (i2c_interrupt s)) (armFlagSt s) rfl hr

/-- Witness for C6: with the environment raising the completion signal and
then dispatching, the armed wait returns right after the dispatch (step 2)
with the flag clear; and a preceding spurious dispatch (flag clear, signal
pending) does not change the observable behaviour of that arm/wait pair. -/
theorem c6_rendezvous_witness :
    (runWait ackBusy [Act.raiseSSPIF, Act.irq] (armFlagSt mstIdle) =
      some (snapSt (armFlagSt mstIdle) [Act.raiseSSPIF, Act.irq] 2,
        ([Act.raiseSSPIF, Act.irq] : List Act).drop 2) ∧
      (snapSt (armFlagSt mstIdle) [Act.raiseSSPIF, Act.irq] 2).ack_flag = 0) ∧
    consumedCount (runWait ackBusy [Act.raiseSSPIF, Act.irq]
        (armFlagSt (i2c_interrupt { mstIdle with sspif := true }))) =
      consumedCount (runWait ackBusy [Act.raiseSSPIF, Act.irq] (armFlagSt mstIdle)) := by
  constructor
  · exact c6_rendezvous.1 mstIdle [Act.raiseSSPIF, Act.irq] 1 (by decide)
      (fun k hk => by
        have hk0 : k = 0 := by omega
        subst hk0
        decide)
  · exact c6_rendezvous.2.2 { mstIdle with sspif := true } [Act.raiseSSPIF, Act.irq]
      (by decide) (by decide)

/-- C10: the `ack_flag` discipline. Each of `i2c_start`, `i2c_rstart` and
`i2c_send` sets the flag exactly once, immediately before its `SSPBUF` load;
`i2c_stop` and `i2c_receive` neither set nor read it; `i2c_check_idle`'s exit
condition is independent of it; among statement effects only `ack_flag = 1;`
changes the flag (to 1), and among environment steps only the interrupt
handler changes it (from 1 to 0); and whenever `i2c_start`, `i2c_rstart` or
`i2c_send` returns, the flag equals 0. -/
theorem c10_flag_discipline :
    (∀ a d : Nat,
      countArm (i2c_start_tr a d) = 1 ∧ armsFollowedByLoad (i2c_start_tr a d) = true ∧
      countArm (i2c_rstart_tr a d) = 1 ∧ armsFollowedByLoad (i2c_rstart_tr a d) = true) ∧
    (∀ dt : Nat,
      countArm (i2c_send_tr dt) = 1 ∧ armsFollowedByLoad (i2c_send_tr dt) = true) ∧
    (countArm i2c_stop_tr = 0 ∧ countAckReads i2c_stop_tr = 0) ∧
    (∀ ack : Nat,
      countArm (i2c_receive_tr ack) = 0 ∧ countAckReads (i2c_receive_tr ack) = 0) ∧
    (∀ (m x : Nat) (s : MSt), idleBusy m { s with ack_flag := x } = idleBusy m s) ∧
    (∀ (e : Ev) (s : MSt), (evStep e s).ack_flag ≠ s.ack_flag →
      e = Ev.armFlag ∧ (evStep e s).ack_flag = 1) ∧
    (∀ (a : Act) (s : MSt), (applyAct a s).ack_flag ≠ s.ack_flag →
      a = Act.irq ∧ s.ack_flag = 1 ∧ (applyAct a s).ack_flag = 0) ∧
    (∀ a d acts s r s2 acts2, i2c_start a d acts s = some (r, s2, acts2) →
      s2.ack_flag = 0) ∧
    (∀ a d acts s r s2 acts2, i2c_rstart a d acts s = some (r, s2, acts2) →
      s2.ack_flag = 0) ∧
    (∀ dt acts s r s2 acts2, i2c_send dt acts s = some (r, s2, acts2) →
      s2.ack_flag = 0) := by
  refine ⟨fun a d => ⟨rfl, rfl, rfl, rfl⟩, fun dt => ⟨rfl, rfl⟩, ⟨rfl, rfl⟩,
    fun ack => ⟨rfl, rfl⟩, fun m x s => rfl, ?_, ?_, ?_, ?_, ?_⟩
  · intro e s h
    cases e with
    | armFlag => exact ⟨rfl, rfl⟩
    | waitIdle m => exact absurd rfl h
    | setBit i => exact absurd rfl h
    | setAckdt v => exact absurd rfl h
    | loadBuf v => exact absurd rfl h
    | waitAck => exact absurd rfl h
    | readBuf => exact absurd rfl h
  · intro a s h
    obtain ⟨h1, -, h3, h4⟩ := applyAct_flag_change a s h
    exact ⟨h1, h3, h4⟩
  · intro a d acts s r s2 acts2 h
    have h2 : runAddrOp ([Ev.waitIdle 0x5, Ev.setBit 0, Ev.waitIdle 0x5, Ev.armFlag,
        Ev.loadBuf (((a <<< 1) + d) % 256)] ++ [Ev.waitAck]) acts s = some (r, s2, acts2) := h
    exact (runAddrOp_waitAck _ acts s r s2 acts2 h2).1
  · intro a d acts s r s2 acts2 h
    have h2 : runAddrOp ([Ev.waitIdle 0x5, Ev.setBit 1, Ev.waitIdle 0x5, Ev.armFlag,
        Ev.loadBuf (((a <<< 1) + d) % 256)] ++ [Ev.waitAck]) acts s = some (r, s2, acts2) := h
    exact (runAddrOp_waitAck _ acts s r s2 acts2 h2).1
  · intro dt acts s r s2 acts2 h
    have h2 : runAddrOp ([Ev.waitIdle 0x5, Ev.armFlag, Ev.loadBuf (dt % 256)] ++
        [Ev.waitAck]) acts s = some (r, s2, acts2) := h
    exact (runAddrOp_waitAck _ acts s r s2 acts2 h2).1

/-- Witness for C10: a concrete terminating `i2c_send` run; the final state
has the flag cleared (by the interrupt dispatch, the only clearing step). -/
theorem c10_flag_discipline_witness :
    i2c_send 0x11 [Act.raiseSSPIF, Act.irq] mstIdle =
      some (0, { con2 := 0, stat := 0, buf := 17, sspif := false, bclif := false,
                 ack_flag := 0 }, []) ∧
    ({ con2 := 0, stat := 0, buf := 17, sspif := false, bclif := false,
       ack_flag := 0 } : MSt).ack_flag = 0 :=
  ⟨by decide,
    c10_flag_discipline.2.2.2.2.2.2.2.2.2 0x11 [Act.raiseSSPIF, Act.irq] mstIdle 0
      { con2 := 0, stat := 0, buf := 17, sspif := false, bclif := false, ack_flag := 0 }
      [] (by decide)⟩
